import Mathlib

/-!
Shallow embedding of `aggregatePreferences` from
`src/routes/(admin)/account/create_profile/+page.ts` of the
multi-person-ai-trip-planner repository.

Modelling conventions:
* A `preferences` row stores four JSON columns (`dates`, `budget`,
  `destination_prefs`, `constraints`); each column and each field inside it
  may be absent, modelled with `Option`.
* JavaScript date strings are represented by their timestamps as `Int`
  (the code compares `Date` objects, which compares timestamps; the final
  ISO formatting is modelled as the identity on the timestamp).
* JavaScript numbers are modelled as `Int`; the code only compares and
  takes min/max of them.
* The JS `x || d` default idiom is truthiness-based: for strings the empty
  string falls through to the default, for numbers `0` does, for arrays
  never (an array is always truthy).  `jsOrStr` / `jsOrInt` mirror this.
* A JS `Set` deduplicates keeping the first occurrence in insertion
  order; `insertionDedup` mirrors this.
-/

namespace TripAggregate

/-- The `dates` JSON column of a preferences row. -/
structure DatesJson where
  earliestStart : Option Int
  latestEnd : Option Int
  idealDuration : Option String
  flexible : Option Bool
  deriving Repr, DecidableEq

/-- The `budget` JSON column of a preferences row. -/
structure BudgetJson where
  min : Option Int
  max : Option Int
  includeFlights : Option Bool
  includeAccommodation : Option Bool
  includeFood : Option Bool
  includeActivities : Option Bool
  flexibility : Option String
  deriving Repr, DecidableEq

/-- The `destination_prefs` JSON column of a preferences row. -/
structure DestPrefsJson where
  vibes : Option (List String)
  scope : Option String
  specificPlaces : Option String
  placesToAvoid : Option String
  deriving Repr, DecidableEq

/-- The `constraints` JSON column of a preferences row. -/
structure ConstraintsJson where
  dietary : Option (List String)
  otherDietary : Option String
  accessibility : Option (List String)
  otherAccessibility : Option String
  hardNos : Option String
  deriving Repr, DecidableEq

/-- A row of the `preferences` table, restricted to the columns the
aggregation reads.  Every JSON column may be null/absent. -/
structure Preference where
  dates : Option DatesJson
  budget : Option BudgetJson
  destination_prefs : Option DestPrefsJson
  constraints : Option ConstraintsJson
  deriving Repr, DecidableEq

/-- JS `o || d` on an optional string: absent or empty falls to `d`. -/
def jsOrStr (o : Option String) (d : String) : String :=
  match o with
  | none => d
  | some s => if s = "" then d else s

/-- JS `o || d` on an optional number: absent or `0` falls to `d`. -/
def jsOrInt (o : Option Int) (d : Int) : Int :=
  match o with
  | none => d
  | some n => if n = 0 then d else n

/-- JS `o ? o : null` on an optional string: empty becomes null. -/
def jsTruthyStr (o : Option String) : Option String :=
  match o with
  | none => none
  | some s => if s = "" then none else some s

/-- One `Set.add`: append unless already present. -/
def dedupStep (acc : List String) (x : String) : List String :=
  if x ∈ acc then acc else acc ++ [x]

/-- JS `Set` deduplication: keep the first occurrence, in insertion order. -/
def insertionDedup (l : List String) : List String :=
  l.foldl dedupStep []

/-- Source: `Math.max(...l)` over a non-empty list (`none` when the list is empty;
the source only evaluates it on non-empty lists). -/
def listMax : List Int → Option Int
  | [] => none
  | x :: xs => some (xs.foldl max x)

/-- Source: `Math.min(...l)` over a non-empty list (`none` when the list is empty;
the source only evaluates it on non-empty lists). -/
def listMin : List Int → Option Int
  | [] => none
  | x :: xs => some (xs.foldl min x)

/-- Source: `m[k] = (m[k] || 0) + 1` on a JS object used as a count map. -/
def bump (m : List (String × Nat)) (k : String) : List (String × Nat) :=
  if m.any (fun e => e.1 = k) then
    m.map (fun e => if e.1 = k then (e.1, e.2 + 1) else e)
  else
    m ++ [(k, 1)]

/-! ## Extracted per-member views (the four `preferences.map` lambdas) -/

/-- One entry of `allDates` before filtering. -/
structure DatesView where
  earliestStart : Option Int
  latestEnd : Option Int
  idealDuration : Option String
  flexible : Bool
  deriving Repr, DecidableEq

/-- The `allDates` map lambda: `dates?.earliestStart ? new Date(...) : null`,
`dates?.idealDuration || null`, `dates?.flexible || false`. -/
def extractDates (p : Preference) : DatesView :=
  match p.dates with
  | none => ⟨none, none, none, false⟩
  | some d => ⟨d.earliestStart, d.latestEnd, jsTruthyStr d.idealDuration, d.flexible.getD false⟩

/-- One entry of `allBudgets`. -/
structure BudgetView where
  min : Int
  max : Int
  includeFlights : Bool
  includeAccommodation : Bool
  includeFood : Bool
  includeActivities : Bool
  flexibility : String
  deriving Repr, DecidableEq

/-- The `allBudgets` map lambda: every field defaulted via `||`. -/
def extractBudget (p : Preference) : BudgetView :=
  match p.budget with
  | none => ⟨0, 0, false, false, false, false, "prefer_under"⟩
  | some b =>
      ⟨jsOrInt b.min 0, jsOrInt b.max 0,
       b.includeFlights.getD false, b.includeAccommodation.getD false,
       b.includeFood.getD false, b.includeActivities.getD false,
       jsOrStr b.flexibility "prefer_under"⟩

/-- One entry of `allDestPrefs`. -/
structure DestView where
  vibes : List String
  scope : String
  specificPlaces : String
  placesToAvoid : String
  deriving Repr, DecidableEq

/-- The `allDestPrefs` map lambda (`vibes || []`, `scope || "either"`, …;
an array is always truthy, so a present `vibes` array is kept as is). -/
def extractDest (p : Preference) : DestView :=
  match p.destination_prefs with
  | none => ⟨[], "either", "", ""⟩
  | some d =>
      ⟨d.vibes.getD [], jsOrStr d.scope "either",
       jsOrStr d.specificPlaces "", jsOrStr d.placesToAvoid ""⟩

/-- One entry of `allConstraints`. -/
structure ConstraintsView where
  dietary : List String
  otherDietary : String
  accessibility : List String
  otherAccessibility : String
  hardNos : String
  deriving Repr, DecidableEq

/-- The `allConstraints` map lambda. -/
def extractConstraints (p : Preference) : ConstraintsView :=
  match p.constraints with
  | none => ⟨[], "", [], "", ""⟩
  | some c =>
      ⟨c.dietary.getD [], jsOrStr c.otherDietary "",
       c.accessibility.getD [], jsOrStr c.otherAccessibility "",
       jsOrStr c.hardNos ""⟩

/-! ## The aggregation pipeline, helper by helper -/

/-- Source: `allDates`: the per-member date views, keeping only members who
supplied both an earliest start and a latest end. -/
def allDates (preferences : List Preference) : List DatesView :=
  (preferences.map extractDates).filter
    (fun d => d.earliestStart.isSome && d.latestEnd.isSome)

/-- Source: `commonStart`: latest of all earliest starts (null when nobody
contributed dates). -/
def commonStart (preferences : List Preference) : Option Int :=
  listMax ((allDates preferences).map (fun d => d.earliestStart.getD 0))

/-- Source: `commonEnd`: earliest of all latest ends. -/
def commonEnd (preferences : List Preference) : Option Int :=
  listMin ((allDates preferences).map (fun d => d.latestEnd.getD 0))

/-- Source: `hasDateOverlap = commonStart && commonEnd && commonStart <= commonEnd`
(a `Date` object is always truthy; `null` makes the conjunction falsy). -/
def hasDateOverlap (preferences : List Preference) : Bool :=
  match commonStart preferences, commonEnd preferences with
  | some s, some e => decide (s ≤ e)
  | _, _ => false

/-- Source: `idealDurations = [...new Set(allDates.map(d => d.idealDuration).filter(Boolean))]`. -/
def idealDurations (preferences : List Preference) : List String :=
  insertionDedup ((allDates preferences).filterMap (fun d => d.idealDuration))

/-- Source: `allBudgets`: one view per member, nobody filtered out. -/
def allBudgets (preferences : List Preference) : List BudgetView :=
  preferences.map extractBudget

/-- Source: `Math.min(...allBudgets.map(b => b.max))`; only used on non-empty input. -/
def minOfMaxBudgets (preferences : List Preference) : Int :=
  (listMin ((allBudgets preferences).map (fun b => b.max))).getD 0

/-- Source: `Math.max(...allBudgets.map(b => b.min))`; only used on non-empty input. -/
def maxOfMinBudgets (preferences : List Preference) : Int :=
  (listMax ((allBudgets preferences).map (fun b => b.min))).getD 0

/-- Source: `hasBudgetOverlap = maxOfMinBudgets <= minOfMaxBudgets`. -/
def hasBudgetOverlap (preferences : List Preference) : Bool :=
  decide (maxOfMinBudgets preferences ≤ minOfMaxBudgets preferences)

/-- The four `every`-guarded pushes building `commonInclusions`. -/
def commonInclusions (preferences : List Preference) : List String :=
  (if (allBudgets preferences).all (fun b => b.includeFlights) then ["Flights"] else []) ++
  (if (allBudgets preferences).all (fun b => b.includeAccommodation) then ["Accommodation"] else []) ++
  (if (allBudgets preferences).all (fun b => b.includeFood) then ["Food"] else []) ++
  (if (allBudgets preferences).all (fun b => b.includeActivities) then ["Activities"] else [])

/-- The `flexibilityLevels` count map. -/
def flexibilityLevels (preferences : List Preference) : List (String × Nat) :=
  (allBudgets preferences).foldl (fun m b => bump m b.flexibility) []

/-- Source: `allDestPrefs`: one view per member. -/
def allDestPrefs (preferences : List Preference) : List DestView :=
  preferences.map extractDest

/-- Source: `commonVibes`: the first member's vibes filtered to those every member
includes (empty when there are no members). -/
def commonVibes (preferences : List Preference) : List String :=
  match allDestPrefs preferences with
  | [] => []
  | d0 :: ds =>
      d0.vibes.filter (fun v => (d0 :: ds).all (fun pref => decide (v ∈ pref.vibes)))

/-- Source: `allVibes`: union of all members' vibes via a `Set`, insertion order. -/
def allVibes (preferences : List Preference) : List String :=
  insertionDedup (List.flatten ((allDestPrefs preferences).map (fun d => d.vibes)))

/-- The `popularScopes` count map. -/
def popularScopes (preferences : List Preference) : List (String × Nat) :=
  (allDestPrefs preferences).foldl (fun m d => bump m d.scope) []

/-- Source: `specificPlaces`: all non-empty free-text entries, one per member. -/
def specificPlaces (preferences : List Preference) : List String :=
  ((allDestPrefs preferences).map (fun d => d.specificPlaces)).filter
    (fun s => decide (s ≠ ""))

/-- Source: `placesToAvoid`: all non-empty free-text entries, one per member. -/
def placesToAvoid (preferences : List Preference) : List String :=
  ((allDestPrefs preferences).map (fun d => d.placesToAvoid)).filter
    (fun s => decide (s ≠ ""))

/-- Source: `allConstraints`: one view per member. -/
def allConstraints (preferences : List Preference) : List ConstraintsView :=
  preferences.map extractConstraints

/-- The insertion stream feeding the dietary `Set`: for each member, the
selected tags then the non-empty free-text "other" entry. -/
def dietaryStream (preferences : List Preference) : List String :=
  List.flatten ((allConstraints preferences).map
    (fun c => c.dietary ++ (if c.otherDietary = "" then [] else [c.otherDietary])))

/-- Source: `dietary`: the deduplicated union of tags and free-text entries. -/
def dietary (preferences : List Preference) : List String :=
  insertionDedup (dietaryStream preferences)

/-- The insertion stream feeding the accessibility `Set`. -/
def accessibilityStream (preferences : List Preference) : List String :=
  List.flatten ((allConstraints preferences).map
    (fun c => c.accessibility ++
      (if c.otherAccessibility = "" then [] else [c.otherAccessibility])))

/-- Source: `accessibility`: the deduplicated union of tags and free-text entries. -/
def accessibility (preferences : List Preference) : List String :=
  insertionDedup (accessibilityStream preferences)

/-- Source: `hardNos = allConstraints.map(c => c.hardNos).filter(Boolean)`:
a list, one verbatim entry per supplying member, never deduplicated. -/
def hardNos (preferences : List Preference) : List String :=
  ((allConstraints preferences).map (fun c => c.hardNos)).filter
    (fun s => decide (s ≠ ""))

/-- Source: `conflicts.noDateOverlap = !hasDateOverlap && allDates.length > 0`. -/
def noDateOverlap (preferences : List Preference) : Bool :=
  !(hasDateOverlap preferences) && decide (0 < (allDates preferences).length)

/-- Source: `conflicts.noBudgetOverlap = !hasBudgetOverlap && allBudgets.length > 0`. -/
def noBudgetOverlap (preferences : List Preference) : Bool :=
  !(hasBudgetOverlap preferences) && decide (0 < (allBudgets preferences).length)

/-- Source: `conflicts.noCommonVibes = commonVibes.length === 0 && allVibes.length > 0`. -/
def noCommonVibes (preferences : List Preference) : Bool :=
  decide ((commonVibes preferences).length = 0) &&
  decide (0 < (allVibes preferences).length)

/-- The three `details.push` calls, in source order. -/
def conflictDetails (preferences : List Preference) : List String :=
  (if noDateOverlap preferences then ["No overlapping dates between all members"] else []) ++
  (if noBudgetOverlap preferences then ["Budget ranges don\x27t overlap"] else []) ++
  (if noCommonVibes preferences then ["No common vibes selected by all members"] else [])

/-! ## The output record -/

structure DatesAgg where
  earliestCommonStart : Option Int
  latestCommonEnd : Option Int
  commonWindow : Option (Int × Int)
  idealDurations : List String
  deriving Repr, DecidableEq

structure BudgetAgg where
  minBudget : Int
  maxBudget : Int
  commonInclusions : List String
  flexibilityLevels : List (String × Nat)
  deriving Repr, DecidableEq

structure DestinationAgg where
  commonVibes : List String
  allVibes : List String
  popularScopes : List (String × Nat)
  specificPlaces : List String
  placesToAvoid : List String
  deriving Repr, DecidableEq

structure ConstraintsAgg where
  dietary : List String
  accessibility : List String
  hardNos : List String
  deriving Repr, DecidableEq

structure ConflictsAgg where
  hasConflicts : Bool
  noDateOverlap : Bool
  noBudgetOverlap : Bool
  noCommonVibes : Bool
  details : List String
  deriving Repr, DecidableEq

structure AggregatedPreferences where
  dates : DatesAgg
  budget : BudgetAgg
  destination : DestinationAgg
  constraints : ConstraintsAgg
  conflicts : ConflictsAgg
  deriving Repr, DecidableEq

/-- The early-return value for an empty preference list. -/
def emptyAggregated : AggregatedPreferences :=
  { dates := ⟨none, none, none, []⟩
    budget := ⟨0, 0, [], []⟩
    destination := ⟨[], [], [], [], []⟩
    constraints := ⟨[], [], []⟩
    conflicts := ⟨false, false, false, false, []⟩ }

/-- The non-empty branch of `aggregatePreferences`, assembled from the
helpers above exactly as in the source. -/
def aggregateMain (preferences : List Preference) : AggregatedPreferences :=
  { dates :=
      { earliestCommonStart := commonStart preferences
        latestCommonEnd := commonEnd preferences
        commonWindow :=
          match commonStart preferences, commonEnd preferences with
          | some s, some e => if s ≤ e then some (s, e) else none
          | _, _ => none
        idealDurations := idealDurations preferences }
    budget :=
      { minBudget := maxOfMinBudgets preferences
        maxBudget := minOfMaxBudgets preferences
        commonInclusions := commonInclusions preferences
        flexibilityLevels := flexibilityLevels preferences }
    destination :=
      { commonVibes := commonVibes preferences
        allVibes := allVibes preferences
        popularScopes := popularScopes preferences
        specificPlaces := specificPlaces preferences
        placesToAvoid := placesToAvoid preferences }
    constraints :=
      { dietary := dietary preferences
        accessibility := accessibility preferences
        hardNos := hardNos preferences }
    conflicts :=
      { hasConflicts := decide (0 < (conflictDetails preferences).length)
        noDateOverlap := noDateOverlap preferences
        noBudgetOverlap := noBudgetOverlap preferences
        noCommonVibes := noCommonVibes preferences
        details := conflictDetails preferences } }

/-- Source: `aggregatePreferences`: empty input short-circuits to the defaulted
profile, everything else runs the pipeline. -/
def aggregatePreferences (preferences : List Preference) : AggregatedPreferences :=
  if preferences = [] then emptyAggregated else aggregateMain preferences

/-! ## Spec-side views and predicates -/

/-- Whether a member supplied both an earliest start and a latest end,
i.e. survives the `allDates` filter. -/
def suppliedDates (p : Preference) : Prop :=
  (extractDates p).earliestStart.isSome = true ∧ (extractDates p).latestEnd.isSome = true

instance (p : Preference) : Decidable (suppliedDates p) := by
  unfold suppliedDates; infer_instance

/-- The earliest-start timestamp a contributing member feeds into the
common-window computation. -/
def startVal (p : Preference) : Int :=
  ((extractDates p).earliestStart).getD 0

/-- The latest-end timestamp a contributing member feeds into the
common-window computation. -/
def endVal (p : Preference) : Int :=
  ((extractDates p).latestEnd).getD 0

/-- Modelled on the spec wording for the budget view: a member's budget
minimum with an absent `budget` object or absent `min` field treated as 0. -/
def specBudgetMin (p : Preference) : Int :=
  match p.budget with
  | none => 0
  | some b => b.min.getD 0

/-- Spec wording for the budget maximum, absent data treated as 0. -/
def specBudgetMax (p : Preference) : Int :=
  match p.budget with
  | none => 0
  | some b => b.max.getD 0

/-! ## Helper lemmas: fold max / fold min -/

theorem seed_le_foldl_max (xs : List Int) (x : Int) : x ≤ xs.foldl max x := by
  induction xs generalizing x with
  | nil => exact le_refl _
  | cons y ys ih =>
      simp only [List.foldl_cons]
      exact le_trans (le_max_left x y) (ih (max x y))

theorem le_foldl_max (xs : List Int) (x a : Int) (h : a = x ∨ a ∈ xs) :
    a ≤ xs.foldl max x := by
  induction xs generalizing x with
  | nil =>
      rcases h with rfl | h
      · exact le_refl _
      · simp at h
  | cons y ys ih =>
      simp only [List.foldl_cons]
      rcases h with rfl | h
      · exact le_trans (le_max_left a y) (seed_le_foldl_max ys (max a y))
      · rcases List.mem_cons.mp h with rfl | h
        · exact le_trans (le_max_right x a) (seed_le_foldl_max ys (max x a))
        · exact ih (max x y) (Or.inr h)

theorem foldl_max_mem (xs : List Int) (x : Int) :
    xs.foldl max x = x ∨ xs.foldl max x ∈ xs := by
  induction xs generalizing x with
  | nil => exact Or.inl rfl
  | cons y ys ih =>
      simp only [List.foldl_cons]
      rcases ih (max x y) with h | h
      · rcases max_choice x y with hc | hc
        · exact Or.inl (h.trans hc)
        · exact Or.inr (List.mem_cons.mpr (Or.inl (h.trans hc)))
      · exact Or.inr (List.mem_cons.mpr (Or.inr h))

theorem foldl_min_le_seed (xs : List Int) (x : Int) : xs.foldl min x ≤ x := by
  induction xs generalizing x with
  | nil => exact le_refl _
  | cons y ys ih =>
      simp only [List.foldl_cons]
      exact le_trans (ih (min x y)) (min_le_left x y)

theorem foldl_min_le (xs : List Int) (x a : Int) (h : a = x ∨ a ∈ xs) :
    xs.foldl min x ≤ a := by
  induction xs generalizing x with
  | nil =>
      rcases h with rfl | h
      · exact le_refl _
      · simp at h
  | cons y ys ih =>
      simp only [List.foldl_cons]
      rcases h with rfl | h
      · exact le_trans (foldl_min_le_seed ys (min a y)) (min_le_left a y)
      · rcases List.mem_cons.mp h with rfl | h
        · exact le_trans (foldl_min_le_seed ys (min x a)) (min_le_right x a)
        · exact ih (min x y) (Or.inr h)

theorem foldl_min_mem (xs : List Int) (x : Int) :
    xs.foldl min x = x ∨ xs.foldl min x ∈ xs := by
  induction xs generalizing x with
  | nil => exact Or.inl rfl
  | cons y ys ih =>
      simp only [List.foldl_cons]
      rcases ih (min x y) with h | h
      · rcases min_choice x y with hc | hc
        · exact Or.inl (h.trans hc)
        · exact Or.inr (List.mem_cons.mpr (Or.inl (h.trans hc)))
      · exact Or.inr (List.mem_cons.mpr (Or.inr h))

theorem listMax_eq_none_iff (l : List Int) : listMax l = none ↔ l = [] := by
  cases l <;> simp [listMax]

theorem listMax_isSome_iff (l : List Int) : (listMax l).isSome = true ↔ l ≠ [] := by
  cases l <;> simp [listMax]

theorem listMin_isSome_iff (l : List Int) : (listMin l).isSome = true ↔ l ≠ [] := by
  cases l <;> simp [listMin]

theorem listMax_spec (l : List Int) (m : Int) (h : listMax l = some m) :
    m ∈ l ∧ ∀ a ∈ l, a ≤ m := by
  cases l with
  | nil => simp [listMax] at h
  | cons x xs =>
      simp only [listMax, Option.some_inj] at h
      subst h
      refine ⟨?_, ?_⟩
      · rcases foldl_max_mem xs x with h | h
        · rw [h]; exact List.mem_cons_self x xs
        · exact List.mem_cons.mpr (Or.inr h)
      · intro a ha
        rcases List.mem_cons.mp ha with rfl | ha
        · exact le_foldl_max xs a a (Or.inl rfl)
        · exact le_foldl_max xs x a (Or.inr ha)

theorem listMin_spec (l : List Int) (m : Int) (h : listMin l = some m) :
    m ∈ l ∧ ∀ a ∈ l, m ≤ a := by
  cases l with
  | nil => simp [listMin] at h
  | cons x xs =>
      simp only [listMin, Option.some_inj] at h
      subst h
      refine ⟨?_, ?_⟩
      · rcases foldl_min_mem xs x with h | h
        · rw [h]; exact List.mem_cons_self x xs
        · exact List.mem_cons.mpr (Or.inr h)
      · intro a ha
        rcases List.mem_cons.mp ha with rfl | ha
        · exact foldl_min_le xs a a (Or.inl rfl)
        · exact foldl_min_le xs x a (Or.inr ha)

/-! ## Helper lemmas: insertion-order dedup -/

theorem mem_foldl_dedupStep (l acc : List String) (x : String) :
    x ∈ l.foldl dedupStep acc ↔ x ∈ acc ∨ x ∈ l := by
  induction l generalizing acc with
  | nil => simp
  | cons y ys ih =>
      simp only [List.foldl_cons, ih, dedupStep]
      by_cases hy : y ∈ acc
      · simp only [if_pos hy]
        constructor
        · rintro (h | h)
          · exact Or.inl h
          · exact Or.inr (List.mem_cons.mpr (Or.inr h))
        · rintro (h | h)
          · exact Or.inl h
          · rcases List.mem_cons.mp h with rfl | h
            · exact Or.inl hy
            · exact Or.inr h
      · simp only [if_neg hy, List.mem_append, List.mem_singleton, List.mem_cons]
        tauto

theorem nodup_foldl_dedupStep (l : List String) (acc : List String)
    (h : acc.Nodup) : (l.foldl dedupStep acc).Nodup := by
  induction l generalizing acc with
  | nil => exact h
  | cons y ys ih =>
      simp only [List.foldl_cons, dedupStep]
      by_cases hy : y ∈ acc
      · simpa [if_pos hy] using ih acc h
      · refine ih _ ?_
        simp [if_neg hy, List.nodup_append, h, hy]

theorem mem_insertionDedup (l : List String) (x : String) :
    x ∈ insertionDedup l ↔ x ∈ l := by
  simp [insertionDedup, mem_foldl_dedupStep]

theorem insertionDedup_nodup (l : List String) : (insertionDedup l).Nodup :=
  nodup_foldl_dedupStep l [] List.nodup_nil

/-! ## Helper lemmas: the pipeline -/

theorem aggregate_nil : aggregatePreferences [] = emptyAggregated := rfl

theorem aggregate_ne_nil (preferences : List Preference) (h : preferences ≠ []) :
    aggregatePreferences preferences = aggregateMain preferences := by
  simp [aggregatePreferences, h]

theorem jsOrInt_zero (o : Option Int) : jsOrInt o 0 = o.getD 0 := by
  cases o with
  | none => rfl
  | some n =>
      by_cases hn : n = 0
      · simp [jsOrInt, hn]
      · simp [jsOrInt, hn]

theorem specBudgetMin_eq_extract (p : Preference) :
    specBudgetMin p = (extractBudget p).min := by
  cases hb : p.budget with
  | none => simp [specBudgetMin, extractBudget, hb]
  | some b => simp [specBudgetMin, extractBudget, hb, jsOrInt_zero]

theorem specBudgetMax_eq_extract (p : Preference) :
    specBudgetMax p = (extractBudget p).max := by
  cases hb : p.budget with
  | none => simp [specBudgetMax, extractBudget, hb]
  | some b => simp [specBudgetMax, extractBudget, hb, jsOrInt_zero]

theorem mem_allDates_iff (preferences : List Preference) (d : DatesView) :
    d ∈ allDates preferences ↔
      ∃ p ∈ preferences, extractDates p = d ∧
        d.earliestStart.isSome = true ∧ d.latestEnd.isSome = true := by
  simp only [allDates, List.mem_filter, List.mem_map, Bool.and_eq_true]
  tauto

theorem allDates_eq_nil_iff (preferences : List Preference) :
    allDates preferences = [] ↔ ∀ p ∈ preferences, ¬ suppliedDates p := by
  constructor
  · intro h p hp hs
    have : extractDates p ∈ allDates preferences := by
      rw [mem_allDates_iff]
      exact ⟨p, hp, rfl, hs.1, hs.2⟩
    simp [h] at this
  · intro h
    rcases he : allDates preferences with _ | ⟨d, ds⟩
    · rfl
    · exfalso
      have hd : d ∈ allDates preferences := by rw [he]; exact List.mem_cons_self d ds
      rw [mem_allDates_iff] at hd
      rcases hd with ⟨p, hp, hpd, h1, h2⟩
      exact h p hp ⟨by rw [hpd]; exact h1, by rw [hpd]; exact h2⟩

theorem mem_startVals_iff (preferences : List Preference) (v : Int) :
    v ∈ (allDates preferences).map (fun d => d.earliestStart.getD 0) ↔
      ∃ p ∈ preferences, suppliedDates p ∧ startVal p = v := by
  simp only [List.mem_map, mem_allDates_iff, suppliedDates, startVal]
  constructor
  · rintro ⟨d, ⟨p, hp, rfl, h1, h2⟩, rfl⟩
    exact ⟨p, hp, ⟨h1, h2⟩, rfl⟩
  · rintro ⟨p, hp, ⟨h1, h2⟩, rfl⟩
    exact ⟨extractDates p, ⟨p, hp, rfl, h1, h2⟩, rfl⟩

theorem mem_endVals_iff (preferences : List Preference) (v : Int) :
    v ∈ (allDates preferences).map (fun d => d.latestEnd.getD 0) ↔
      ∃ p ∈ preferences, suppliedDates p ∧ endVal p = v := by
  simp only [List.mem_map, mem_allDates_iff, suppliedDates, endVal]
  constructor
  · rintro ⟨d, ⟨p, hp, rfl, h1, h2⟩, rfl⟩
    exact ⟨p, hp, ⟨h1, h2⟩, rfl⟩
  · rintro ⟨p, hp, ⟨h1, h2⟩, rfl⟩
    exact ⟨extractDates p, ⟨p, hp, rfl, h1, h2⟩, rfl⟩

@[simp] theorem aggregateMain_minBudget (preferences : List Preference) :
    (aggregateMain preferences).budget.minBudget = maxOfMinBudgets preferences := rfl

@[simp] theorem aggregateMain_maxBudget (preferences : List Preference) :
    (aggregateMain preferences).budget.maxBudget = minOfMaxBudgets preferences := rfl

@[simp] theorem aggregateMain_noBudgetOverlap (preferences : List Preference) :
    (aggregateMain preferences).conflicts.noBudgetOverlap = noBudgetOverlap preferences := rfl

@[simp] theorem aggregateMain_noDateOverlap (preferences : List Preference) :
    (aggregateMain preferences).conflicts.noDateOverlap = noDateOverlap preferences := rfl

@[simp] theorem aggregateMain_noCommonVibes (preferences : List Preference) :
    (aggregateMain preferences).conflicts.noCommonVibes = noCommonVibes preferences := rfl

@[simp] theorem aggregateMain_details (preferences : List Preference) :
    (aggregateMain preferences).conflicts.details = conflictDetails preferences := rfl

@[simp] theorem aggregateMain_hasConflicts (preferences : List Preference) :
    (aggregateMain preferences).conflicts.hasConflicts
      = decide (0 < (conflictDetails preferences).length) := rfl

@[simp] theorem aggregateMain_commonVibes (preferences : List Preference) :
    (aggregateMain preferences).destination.commonVibes = commonVibes preferences := rfl

@[simp] theorem aggregateMain_allVibes (preferences : List Preference) :
    (aggregateMain preferences).destination.allVibes = allVibes preferences := rfl

@[simp] theorem aggregateMain_earliestCommonStart (preferences : List Preference) :
    (aggregateMain preferences).dates.earliestCommonStart = commonStart preferences := rfl

@[simp] theorem aggregateMain_latestCommonEnd (preferences : List Preference) :
    (aggregateMain preferences).dates.latestCommonEnd = commonEnd preferences := rfl

@[simp] theorem aggregateMain_idealDurations (preferences : List Preference) :
    (aggregateMain preferences).dates.idealDurations = idealDurations preferences := rfl

@[simp] theorem aggregateMain_dietary (preferences : List Preference) :
    (aggregateMain preferences).constraints.dietary = dietary preferences := rfl

@[simp] theorem aggregateMain_accessibility (preferences : List Preference) :
    (aggregateMain preferences).constraints.accessibility = accessibility preferences := rfl

@[simp] theorem aggregateMain_hardNos (preferences : List Preference) :
    (aggregateMain preferences).constraints.hardNos = hardNos preferences := rfl

theorem mem_budgetMins_iff (preferences : List Preference) (a : Int) :
    a ∈ (allBudgets preferences).map (fun b => b.min) ↔
      ∃ p ∈ preferences, (extractBudget p).min = a := by
  simp [allBudgets]

theorem mem_budgetMaxes_iff (preferences : List Preference) (a : Int) :
    a ∈ (allBudgets preferences).map (fun b => b.max) ↔
      ∃ p ∈ preferences, (extractBudget p).max = a := by
  simp [allBudgets]

theorem maxOfMinBudgets_spec (preferences : List Preference) (h : preferences ≠ []) :
    (∃ p ∈ preferences, (extractBudget p).min = maxOfMinBudgets preferences) ∧
    ∀ p ∈ preferences, (extractBudget p).min ≤ maxOfMinBudgets preferences := by
  have hne : ((allBudgets preferences).map (fun b => b.min)) ≠ [] := by
    simpa [allBudgets] using h
  rcases hm : listMax ((allBudgets preferences).map (fun b => b.min)) with _ | m
  · rw [listMax_eq_none_iff] at hm
    exact absurd hm hne
  · have hspec := listMax_spec _ m hm
    have hval : maxOfMinBudgets preferences = m := by
      simp [maxOfMinBudgets, hm]
    constructor
    · rcases (mem_budgetMins_iff preferences m).mp hspec.1 with ⟨p, hp, hpm⟩
      exact ⟨p, hp, by rw [hpm, hval]⟩
    · intro p hp
      rw [hval]
      exact hspec.2 _ ((mem_budgetMins_iff preferences ((extractBudget p).min)).mpr
        ⟨p, hp, rfl⟩)

theorem minOfMaxBudgets_spec (preferences : List Preference) (h : preferences ≠ []) :
    (∃ p ∈ preferences, (extractBudget p).max = minOfMaxBudgets preferences) ∧
    ∀ p ∈ preferences, minOfMaxBudgets preferences ≤ (extractBudget p).max := by
  have hne : ((allBudgets preferences).map (fun b => b.max)) ≠ [] := by
    simpa [allBudgets] using h
  rcases hm : listMin ((allBudgets preferences).map (fun b => b.max)) with _ | m
  · have : (allBudgets preferences).map (fun b => b.max) = [] := by
      cases hl : (allBudgets preferences).map (fun b => b.max) with
      | nil => rfl
      | cons x xs => rw [hl] at hm; simp [listMin] at hm
    exact absurd this hne
  · have hspec := listMin_spec _ m hm
    have hval : minOfMaxBudgets preferences = m := by
      simp [minOfMaxBudgets, hm]
    constructor
    · rcases (mem_budgetMaxes_iff preferences m).mp hspec.1 with ⟨p, hp, hpm⟩
      exact ⟨p, hp, by rw [hpm, hval]⟩
    · intro p hp
      rw [hval]
      exact hspec.2 _ ((mem_budgetMaxes_iff preferences ((extractBudget p).max)).mpr
        ⟨p, hp, rfl⟩)

theorem noBudgetOverlap_eq (preferences : List Preference) (h : preferences ≠ []) :
    noBudgetOverlap preferences
      = decide (minOfMaxBudgets preferences < maxOfMinBudgets preferences) := by
  have hlen : 0 < (allBudgets preferences).length := by
    simpa [allBudgets, List.length_pos] using h
  have h2 : decide (minOfMaxBudgets preferences < maxOfMinBudgets preferences)
      = !decide (maxOfMinBudgets preferences ≤ minOfMaxBudgets preferences) := by
    rcases le_or_lt (maxOfMinBudgets preferences) (minOfMaxBudgets preferences) with hle | hlt
    · simp [hle, not_lt.mpr hle]
    · simp [hlt, not_le.mpr hlt]
  simp [noBudgetOverlap, hasBudgetOverlap, hlen, h2]

theorem budget_bounds_of_all_none (preferences : List Preference) (h : preferences ≠ [])
    (hall : ∀ p ∈ preferences, p.budget = none) :
    maxOfMinBudgets preferences = 0 ∧ minOfMaxBudgets preferences = 0 := by
  have hmin := maxOfMinBudgets_spec preferences h
  have hmax := minOfMaxBudgets_spec preferences h
  have hz : ∀ p ∈ preferences,
      extractBudget p = ⟨0, 0, false, false, false, false, "prefer_under"⟩ := by
    intro p hp
    simp [extractBudget, hall p hp]
  constructor
  · rcases hmin.1 with ⟨p, hp, hpm⟩
    rw [← hpm, hz p hp]
  · rcases hmax.1 with ⟨p, hp, hpm⟩
    rw [← hpm, hz p hp]

/-- Claim C1: for every non-empty preference list, the output satisfies
`budget.minBudget ≤ budget.maxBudget` iff `conflicts.noBudgetOverlap` is
false; and `noBudgetOverlap` is true iff at least one member supplied budget
data and the maximum of member minimums exceeds the minimum of member
maximums. -/
theorem claim_C1 (preferences : List Preference) (h : preferences ≠ []) :
    ((aggregatePreferences preferences).budget.minBudget ≤
        (aggregatePreferences preferences).budget.maxBudget ↔
      (aggregatePreferences preferences).conflicts.noBudgetOverlap = false) ∧
    ((aggregatePreferences preferences).conflicts.noBudgetOverlap = true ↔
      ((∃ p ∈ preferences, p.budget ≠ none) ∧
        minOfMaxBudgets preferences < maxOfMinBudgets preferences)) := by
  rw [aggregate_ne_nil preferences h]
  constructor
  · show maxOfMinBudgets preferences ≤ minOfMaxBudgets preferences ↔
      noBudgetOverlap preferences = false
    rw [noBudgetOverlap_eq preferences h]
    simp [not_lt]
  · show noBudgetOverlap preferences = true ↔ _
    rw [noBudgetOverlap_eq preferences h]
    simp only [decide_eq_true_eq]
    constructor
    · intro hlt
      refine ⟨?_, hlt⟩
      by_contra hno
      push_neg at hno
      have hb := budget_bounds_of_all_none preferences h hno
      rw [hb.1, hb.2] at hlt
      exact absurd hlt (lt_irrefl 0)
    · rintro ⟨-, hlt⟩
      exact hlt

/-- Witness for C1 at a concrete two-member list with disjoint budget
ranges, discharging the non-emptiness hypothesis. -/
theorem claim_C1_witness :
    (aggregatePreferences
      [⟨none, some ⟨some 500, some 600, none, none, none, none, none⟩, none, none⟩,
       ⟨none, some ⟨some 100, some 200, none, none, none, none, none⟩, none, none⟩]
      ).conflicts.noBudgetOverlap = true := by
  have h := claim_C1
    [⟨none, some ⟨some 500, some 600, none, none, none, none, none⟩, none, none⟩,
     ⟨none, some ⟨some 100, some 200, none, none, none, none, none⟩, none, none⟩]
    (by simp)
  exact h.2.mpr ⟨⟨_, List.mem_cons_self _ _, by simp⟩, by decide⟩

/-- Claim C2: for every non-empty preference list, `budget.minBudget` is the
maximum over all members of their budget min and `budget.maxBudget` is the
minimum over all members of their budget max, absent data treated as 0, so
every member participates in the computation. -/
theorem claim_C2 (preferences : List Preference) (h : preferences ≠ []) :
    (∀ p ∈ preferences,
      specBudgetMin p ≤ (aggregatePreferences preferences).budget.minBudget) ∧
    (∃ p ∈ preferences,
      (aggregatePreferences preferences).budget.minBudget = specBudgetMin p) ∧
    (∀ p ∈ preferences,
      (aggregatePreferences preferences).budget.maxBudget ≤ specBudgetMax p) ∧
    (∃ p ∈ preferences,
      (aggregatePreferences preferences).budget.maxBudget = specBudgetMax p) := by
  rw [aggregate_ne_nil preferences h]
  have hmin := maxOfMinBudgets_spec preferences h
  have hmax := minOfMaxBudgets_spec preferences h
  refine ⟨?_, ?_, ?_, ?_⟩
  · intro p hp
    rw [aggregateMain_minBudget, specBudgetMin_eq_extract]
    exact hmin.2 p hp
  · rcases hmin.1 with ⟨p, hp, hpm⟩
    exact ⟨p, hp, by rw [aggregateMain_minBudget, ← hpm, specBudgetMin_eq_extract]⟩
  · intro p hp
    rw [aggregateMain_maxBudget, specBudgetMax_eq_extract]
    exact hmax.2 p hp
  · rcases hmax.1 with ⟨p, hp, hpm⟩
    exact ⟨p, hp, by rw [aggregateMain_maxBudget, ← hpm, specBudgetMax_eq_extract]⟩

/-- Witness for C2 at a concrete two-member list, one member with no
budget data at all (who still drags `maxBudget` down to 0). -/
theorem claim_C2_witness :
    (aggregatePreferences
      [⟨none, some ⟨some 100, some 200, none, none, none, none, none⟩, none, none⟩,
       ⟨none, none, none, none⟩]).budget.maxBudget ≤
      specBudgetMax (⟨none, none, none, none⟩ : Preference) := by
  have h := claim_C2
    [⟨none, some ⟨some 100, some 200, none, none, none, none, none⟩, none, none⟩,
     ⟨none, none, none, none⟩] (by simp)
  exact h.2.2.1 ⟨none, none, none, none⟩ (by simp)

/-- Claim C5: aggregating the empty preference list returns the
fully-defaulted profile — null date bounds and window, zero budget bounds,
empty lists and count maps, all conflict flags false with empty details —
rather than raising an error. -/
theorem claim_C5 :
    aggregatePreferences [] =
      ⟨⟨none, none, none, []⟩, ⟨0, 0, [], []⟩, ⟨[], [], [], [], []⟩,
       ⟨[], [], []⟩, ⟨false, false, false, false, []⟩⟩ := rfl

theorem commonStart_isSome_iff (preferences : List Preference) :
    (commonStart preferences).isSome = true ↔ ∃ p ∈ preferences, suppliedDates p := by
  rw [commonStart, listMax_isSome_iff]
  constructor
  · intro hne
    by_contra hno
    push_neg at hno
    rw [← allDates_eq_nil_iff] at hno
    simp [hno] at hne
  · rintro ⟨p, hp, hs⟩ hnil
    have hd : allDates preferences = [] := by simpa using hnil
    rw [allDates_eq_nil_iff] at hd
    exact hd p hp hs

theorem commonEnd_isSome_iff (preferences : List Preference) :
    (commonEnd preferences).isSome = true ↔ ∃ p ∈ preferences, suppliedDates p := by
  rw [commonEnd, listMin_isSome_iff]
  constructor
  · intro hne
    by_contra hno
    push_neg at hno
    rw [← allDates_eq_nil_iff] at hno
    simp [hno] at hne
  · rintro ⟨p, hp, hs⟩ hnil
    have hd : allDates preferences = [] := by simpa using hnil
    rw [allDates_eq_nil_iff] at hd
    exact hd p hp hs

theorem commonStart_spec (preferences : List Preference) (s : Int)
    (h : commonStart preferences = some s) :
    (∃ p ∈ preferences, suppliedDates p ∧ startVal p = s) ∧
    ∀ p ∈ preferences, suppliedDates p → startVal p ≤ s := by
  rw [commonStart] at h
  have hspec := listMax_spec _ s h
  constructor
  · rcases (mem_startVals_iff preferences s).mp hspec.1 with ⟨p, hp, hsup, hval⟩
    exact ⟨p, hp, hsup, hval⟩
  · intro p hp hsup
    exact hspec.2 _ ((mem_startVals_iff preferences (startVal p)).mpr ⟨p, hp, hsup, rfl⟩)

theorem commonEnd_spec (preferences : List Preference) (e : Int)
    (h : commonEnd preferences = some e) :
    (∃ p ∈ preferences, suppliedDates p ∧ endVal p = e) ∧
    ∀ p ∈ preferences, suppliedDates p → e ≤ endVal p := by
  rw [commonEnd] at h
  have hspec := listMin_spec _ e h
  constructor
  · rcases (mem_endVals_iff preferences e).mp hspec.1 with ⟨p, hp, hsup, hval⟩
    exact ⟨p, hp, hsup, hval⟩
  · intro p hp hsup
    exact hspec.2 _ ((mem_endVals_iff preferences (endVal p)).mpr ⟨p, hp, hsup, rfl⟩)

theorem noDateOverlap_iff (preferences : List Preference) :
    noDateOverlap preferences = true ↔
      ∃ s e, commonStart preferences = some s ∧ commonEnd preferences = some e ∧
        e < s := by
  unfold noDateOverlap hasDateOverlap
  constructor
  · intro hno
    rw [Bool.and_eq_true] at hno
    obtain ⟨hnot, hlen⟩ := hno
    have hne : allDates preferences ≠ [] := by
      intro hnil
      rw [hnil] at hlen
      simp at hlen
    obtain ⟨s, hs⟩ : ∃ s, commonStart preferences = some s := by
      rw [commonStart]
      exact Option.isSome_iff_exists.mp ((listMax_isSome_iff _).mpr (by simpa using hne))
    obtain ⟨e, he⟩ : ∃ e, commonEnd preferences = some e := by
      rw [commonEnd]
      exact Option.isSome_iff_exists.mp ((listMin_isSome_iff _).mpr (by simpa using hne))
    refine ⟨s, e, hs, he, ?_⟩
    rw [hs, he] at hnot
    simp only [Bool.not_eq_true'] at hnot
    exact lt_of_not_ge (by simpa using hnot)
  · rintro ⟨s, e, hs, he, hlt⟩
    rw [Bool.and_eq_true]
    constructor
    · rw [hs, he]
      simp [not_le.mpr hlt]
    · have hne : allDates preferences ≠ [] := by
        intro hnil
        rw [commonStart, hnil] at hs
        simp [listMax] at hs
      exact decide_eq_true (List.length_pos.mpr hne)

/-- Claim C3: members who supplied no earliest-start or no latest-end date
are excluded from the date-overlap computation; among contributing members
`earliestCommonStart` is the latest earliest-start and `latestCommonEnd` the
earliest latest-end; `noDateOverlap` is true iff at least one member
supplied both dates and the common window is infeasible; with zero
contributors both bounds are null and no date conflict is flagged. -/
theorem claim_C3 (preferences : List Preference) :
    ((aggregatePreferences preferences).dates.earliestCommonStart.isSome = true ↔
      ∃ p ∈ preferences, suppliedDates p) ∧
    ((aggregatePreferences preferences).dates.latestCommonEnd.isSome = true ↔
      ∃ p ∈ preferences, suppliedDates p) ∧
    (∀ s, (aggregatePreferences preferences).dates.earliestCommonStart = some s →
      (∃ p ∈ preferences, suppliedDates p ∧ startVal p = s) ∧
      ∀ p ∈ preferences, suppliedDates p → startVal p ≤ s) ∧
    (∀ e, (aggregatePreferences preferences).dates.latestCommonEnd = some e →
      (∃ p ∈ preferences, suppliedDates p ∧ endVal p = e) ∧
      ∀ p ∈ preferences, suppliedDates p → e ≤ endVal p) ∧
    ((aggregatePreferences preferences).conflicts.noDateOverlap = true ↔
      ∃ s e, (aggregatePreferences preferences).dates.earliestCommonStart = some s ∧
        (aggregatePreferences preferences).dates.latestCommonEnd = some e ∧
        e < s) := by
  rcases preferences with _ | ⟨p0, ps⟩
  · refine ⟨by simp [aggregate_nil, emptyAggregated], by simp [aggregate_nil, emptyAggregated],
      ?_, ?_, by simp [aggregate_nil, emptyAggregated]⟩
    · intro s hs
      simp [aggregate_nil, emptyAggregated] at hs
    · intro e he
      simp [aggregate_nil, emptyAggregated] at he
  · rw [aggregate_ne_nil (p0 :: ps) (by simp)]
    simp only [aggregateMain_earliestCommonStart, aggregateMain_latestCommonEnd,
      aggregateMain_noDateOverlap]
    exact ⟨commonStart_isSome_iff _, commonEnd_isSome_iff _,
      fun s hs => commonStart_spec _ s hs, fun e he => commonEnd_spec _ e he,
      noDateOverlap_iff _⟩

/-- Witness for C3 at a one-member list whose window is 10..20: the common
start is 10 and that member's start value is bounded by it. -/
theorem claim_C3_witness :
    startVal ⟨some ⟨some 10, some 20, none, none⟩, none, none, none⟩ ≤ 10 := by
  have h := (claim_C3 [⟨some ⟨some 10, some 20, none, none⟩, none, none, none⟩]).2.2.1
    10 (by decide)
  exact h.2 _ (List.mem_cons_self _ _) (by decide)

/-- Claim C4: `hasConflicts` equals the disjunction of the three flags;
`details` holds exactly one fixed string per true flag, in the fixed order
date conflict, budget conflict, vibe conflict; and `hasConflicts` is true
iff `details` is non-empty. -/
theorem claim_C4 (preferences : List Preference) :
    ((aggregatePreferences preferences).conflicts.hasConflicts
      = ((aggregatePreferences preferences).conflicts.noDateOverlap ||
         (aggregatePreferences preferences).conflicts.noBudgetOverlap ||
         (aggregatePreferences preferences).conflicts.noCommonVibes)) ∧
    ((aggregatePreferences preferences).conflicts.details
      = (if (aggregatePreferences preferences).conflicts.noDateOverlap
           then ["No overlapping dates between all members"] else []) ++
        (if (aggregatePreferences preferences).conflicts.noBudgetOverlap
           then ["Budget ranges don\x27t overlap"] else []) ++
        (if (aggregatePreferences preferences).conflicts.noCommonVibes
           then ["No common vibes selected by all members"] else [])) ∧
    ((aggregatePreferences preferences).conflicts.hasConflicts = true ↔
      (aggregatePreferences preferences).conflicts.details ≠ []) := by
  rcases preferences with _ | ⟨p0, ps⟩
  · refine ⟨by simp [aggregate_nil, emptyAggregated], by simp [aggregate_nil, emptyAggregated],
      by simp [aggregate_nil, emptyAggregated]⟩
  · rw [aggregate_ne_nil (p0 :: ps) (by simp)]
    simp only [aggregateMain_hasConflicts, aggregateMain_details,
      aggregateMain_noDateOverlap, aggregateMain_noBudgetOverlap,
      aggregateMain_noCommonVibes]
    rcases Bool.eq_false_or_eq_true (noDateOverlap (p0 :: ps)) with hd | hd <;>
      rcases Bool.eq_false_or_eq_true (noBudgetOverlap (p0 :: ps)) with hb | hb <;>
        rcases Bool.eq_false_or_eq_true (noCommonVibes (p0 :: ps)) with hv | hv <;>
          simp [conflictDetails, hd, hb, hv]

theorem commonVibes_cons (p0 : Preference) (ps : List Preference) :
    commonVibes (p0 :: ps)
      = (extractDest p0).vibes.filter
          (fun v => (allDestPrefs (p0 :: ps)).all (fun pref => decide (v ∈ pref.vibes))) := rfl

/-- Claim C6 (amended): `commonVibes` is always a subset of `allVibes`; for
a single-member list `commonVibes` is that member's extracted vibe list and
`allVibes` has exactly the same elements. -/
theorem claim_C6 (preferences : List Preference) :
    (∀ v ∈ (aggregatePreferences preferences).destination.commonVibes,
      v ∈ (aggregatePreferences preferences).destination.allVibes) ∧
    (∀ p, preferences = [p] →
      (aggregatePreferences preferences).destination.commonVibes
        = (extractDest p).vibes ∧
      ∀ v, (v ∈ (aggregatePreferences preferences).destination.allVibes ↔
        v ∈ (extractDest p).vibes)) := by
  constructor
  · rcases preferences with _ | ⟨p0, ps⟩
    · simp [aggregate_nil, emptyAggregated]
    · rw [aggregate_ne_nil (p0 :: ps) (by simp)]
      simp only [aggregateMain_commonVibes, aggregateMain_allVibes]
      intro v hv
      rw [commonVibes_cons] at hv
      have hv0 : v ∈ (extractDest p0).vibes := List.mem_of_mem_filter hv
      rw [allVibes, mem_insertionDedup, List.mem_flatten]
      refine ⟨(extractDest p0).vibes, ?_, hv0⟩
      exact List.mem_map.mpr ⟨extractDest p0,
        List.mem_map.mpr ⟨p0, List.mem_cons_self p0 ps, rfl⟩, rfl⟩
  · intro p hp
    subst hp
    rw [aggregate_ne_nil [p] (by simp)]
    simp only [aggregateMain_commonVibes, aggregateMain_allVibes]
    refine ⟨?_, ?_⟩
    · rw [commonVibes_cons]
      apply List.filter_eq_self.mpr
      intro v hv
      simp [allDestPrefs, hv]
    · intro v
      rw [allVibes, mem_insertionDedup]
      simp [allDestPrefs]

/-- Counterexample to C6 as stated: in a two-member list where exactly one
member supplied a vibe set, `commonVibes` is empty while `allVibes` is not,
so they differ. -/
theorem claim_C6_counterexample :
    (([(⟨none, none, none, none⟩ : Preference),
       ⟨none, none, some ⟨some ["beach"], none, none, none⟩, none⟩].filter
        (fun p => p.destination_prefs.isSome)).length = 1) ∧
    (aggregatePreferences
      [⟨none, none, none, none⟩,
       ⟨none, none, some ⟨some ["beach"], none, none, none⟩, none⟩]
      ).destination.commonVibes = [] ∧
    (aggregatePreferences
      [⟨none, none, none, none⟩,
       ⟨none, none, some ⟨some ["beach"], none, none, none⟩, none⟩]
      ).destination.allVibes = ["beach"] := ⟨rfl, rfl, rfl⟩

/-- Witness for C6 at a concrete single-member list. -/
theorem claim_C6_witness :
    (aggregatePreferences
      [⟨none, none, some ⟨some ["beach", "city"], none, none, none⟩, none⟩]
      ).destination.commonVibes
      = (extractDest ⟨none, none, some ⟨some ["beach", "city"], none, none, none⟩, none⟩).vibes :=
  ((claim_C6 [⟨none, none, some ⟨some ["beach", "city"], none, none, none⟩, none⟩]).2
    _ rfl).1

/-- Claim C7 (amended): `idealDurations` is the deduplicated list of the
non-empty idealDuration labels of the members who supplied both dates
(members filtered out of the date computation contribute no label either),
collected regardless of whether the windows overlap. -/
theorem claim_C7 (preferences : List Preference) :
    (aggregatePreferences preferences).dates.idealDurations.Nodup ∧
    ∀ x, (x ∈ (aggregatePreferences preferences).dates.idealDurations ↔
      ∃ p ∈ preferences, suppliedDates p ∧
        (extractDates p).idealDuration = some x) := by
  rcases preferences with _ | ⟨p0, ps⟩
  · refine ⟨by simp [aggregate_nil, emptyAggregated], ?_⟩
    intro x
    simp [aggregate_nil, emptyAggregated]
  · rw [aggregate_ne_nil (p0 :: ps) (by simp)]
    simp only [aggregateMain_idealDurations]
    refine ⟨insertionDedup_nodup _, ?_⟩
    intro x
    rw [idealDurations, mem_insertionDedup, List.mem_filterMap]
    constructor
    · rintro ⟨d, hd, hdx⟩
      rcases (mem_allDates_iff _ d).mp hd with ⟨p, hp, rfl, h1, h2⟩
      exact ⟨p, hp, ⟨h1, h2⟩, hdx⟩
    · rintro ⟨p, hp, ⟨h1, h2⟩, hx⟩
      exact ⟨extractDates p, (mem_allDates_iff _ _).mpr ⟨p, hp, rfl, h1, h2⟩, hx⟩

/-- Counterexample to C7 as stated: a member who supplied a non-empty
idealDuration but no dates is dropped by the date filter, so the label is
missing from the output. -/
theorem claim_C7_counterexample :
    (extractDates ⟨some ⟨none, none, some "1 week", none⟩, none, none, none⟩).idealDuration
      = some "1 week" ∧
    (aggregatePreferences
      [⟨some ⟨none, none, some "1 week", none⟩, none, none, none⟩]
      ).dates.idealDurations = [] := ⟨rfl, rfl⟩

/-- Witness for C7 at a member who supplied both dates and a label. -/
theorem claim_C7_witness :
    "1 week" ∈ (aggregatePreferences
      [⟨some ⟨some 10, some 20, some "1 week", none⟩, none, none, none⟩]
      ).dates.idealDurations :=
  ((claim_C7 [⟨some ⟨some 10, some 20, some "1 week", none⟩, none, none, none⟩]).2
    "1 week").mpr
    ⟨⟨some ⟨some 10, some 20, some "1 week", none⟩, none, none, none⟩,
      List.mem_cons_self _ _, by constructor <;> rfl, rfl⟩

theorem mem_tag_stream_iff (l : List ConstraintsView)
    (tags : ConstraintsView → List String) (other : ConstraintsView → String)
    (x : String) :
    x ∈ List.flatten (l.map (fun c => tags c ++ (if other c = "" then [] else [other c]))) ↔
      ∃ c ∈ l, x ∈ tags c ∨ (other c = x ∧ x ≠ "") := by
  rw [List.mem_flatten]
  constructor
  · rintro ⟨m, hm, hx⟩
    rw [List.mem_map] at hm
    rcases hm with ⟨c, hc, rfl⟩
    rw [List.mem_append] at hx
    rcases hx with hx | hx
    · exact ⟨c, hc, Or.inl hx⟩
    · by_cases ho : other c = ""
      · simp [ho] at hx
      · simp only [if_neg ho, List.mem_singleton] at hx
        refine ⟨c, hc, Or.inr ⟨hx.symm, ?_⟩⟩
        rw [hx]
        exact ho
  · rintro ⟨c, hc, hx | ⟨heq, hne⟩⟩
    · exact ⟨_, List.mem_map.mpr ⟨c, hc, rfl⟩, List.mem_append.mpr (Or.inl hx)⟩
    · refine ⟨_, List.mem_map.mpr ⟨c, hc, rfl⟩, List.mem_append.mpr (Or.inr ?_)⟩
      have ho : other c ≠ "" := by
        rw [heq]
        exact hne
      simp [if_neg ho, heq.symm]

/-- Claim C8: `constraints.dietary` and `constraints.accessibility` are each
the deduplicated union of all members' selected tags plus each member's
non-empty free-text "other" entry as a single element, while
`constraints.hardNos` is the verbatim list of every member's non-empty
hard-no text, one entry per supplying member, never deduplicated. -/
theorem claim_C8 (preferences : List Preference) :
    (aggregatePreferences preferences).constraints.dietary.Nodup ∧
    (∀ x, x ∈ (aggregatePreferences preferences).constraints.dietary ↔
      ∃ p ∈ preferences, x ∈ (extractConstraints p).dietary ∨
        ((extractConstraints p).otherDietary = x ∧ x ≠ "")) ∧
    (aggregatePreferences preferences).constraints.accessibility.Nodup ∧
    (∀ x, x ∈ (aggregatePreferences preferences).constraints.accessibility ↔
      ∃ p ∈ preferences, x ∈ (extractConstraints p).accessibility ∨
        ((extractConstraints p).otherAccessibility = x ∧ x ≠ "")) ∧
    (aggregatePreferences preferences).constraints.hardNos =
      (preferences.map (fun p => (extractConstraints p).hardNos)).filter
        (fun s => decide (s ≠ "")) := by
  rcases preferences with _ | ⟨p0, ps⟩
  · refine ⟨by simp [aggregate_nil, emptyAggregated], ?_,
      by simp [aggregate_nil, emptyAggregated], ?_,
      by simp [aggregate_nil, emptyAggregated]⟩
    · intro x
      simp [aggregate_nil, emptyAggregated]
    · intro x
      simp [aggregate_nil, emptyAggregated]
  · rw [aggregate_ne_nil (p0 :: ps) (by simp)]
    simp only [aggregateMain_dietary, aggregateMain_accessibility, aggregateMain_hardNos]
    refine ⟨insertionDedup_nodup _, ?_, insertionDedup_nodup _, ?_, ?_⟩
    · intro x
      rw [dietary, mem_insertionDedup, dietaryStream,
        mem_tag_stream_iff _ (fun c => c.dietary) (fun c => c.otherDietary)]
      constructor
      · rintro ⟨c, hc, hx⟩
        rcases List.mem_map.mp hc with ⟨p, hp, rfl⟩
        exact ⟨p, hp, hx⟩
      · rintro ⟨p, hp, hx⟩
        exact ⟨extractConstraints p, List.mem_map.mpr ⟨p, hp, rfl⟩, hx⟩
    · intro x
      rw [accessibility, mem_insertionDedup, accessibilityStream,
        mem_tag_stream_iff _ (fun c => c.accessibility) (fun c => c.otherAccessibility)]
      constructor
      · rintro ⟨c, hc, hx⟩
        rcases List.mem_map.mp hc with ⟨p, hp, rfl⟩
        exact ⟨p, hp, hx⟩
      · rintro ⟨p, hp, hx⟩
        exact ⟨extractConstraints p, List.mem_map.mpr ⟨p, hp, rfl⟩, hx⟩
    · rw [hardNos, allConstraints, List.map_map]
      rfl

/-- Witness for C8 at a two-member list with identical hard-no texts,
showing both entries survive verbatim. -/
theorem claim_C8_witness :
    (aggregatePreferences
      [⟨none, none, none, some ⟨none, none, none, none, some "no camping"⟩⟩,
       ⟨none, none, none, some ⟨none, none, none, none, some "no camping"⟩⟩]
      ).constraints.hardNos = ["no camping", "no camping"] := by
  have h := (claim_C8
    [⟨none, none, none, some ⟨none, none, none, none, some "no camping"⟩⟩,
     ⟨none, none, none, some ⟨none, none, none, none, some "no camping"⟩⟩]).2.2.2.2
  rw [h]
  rfl

/-- Claim C9: the aggregation is total and every missing sub-object or field
is replaced by its neutral default during extraction: nulls for dates, 0 for
budget bounds, false for booleans, `prefer_under` flexibility, `either`
scope, empty sets and free text; a member record with nothing in it still
aggregates to a conflict-free defaulted profile. -/
theorem claim_C9 :
    (∀ p : Preference, p.dates = none → extractDates p = ⟨none, none, none, false⟩) ∧
    (∀ p : Preference, p.budget = none →
      extractBudget p = ⟨0, 0, false, false, false, false, "prefer_under"⟩) ∧
    (∀ p : Preference, p.destination_prefs = none →
      extractDest p = ⟨[], "either", "", ""⟩) ∧
    (∀ p : Preference, p.constraints = none →
      extractConstraints p = ⟨[], "", [], "", ""⟩) ∧
    (extractDates ⟨some ⟨none, none, none, none⟩, none, none, none⟩
      = ⟨none, none, none, false⟩) ∧
    (extractBudget ⟨none, some ⟨none, none, none, none, none, none, none⟩, none, none⟩
      = ⟨0, 0, false, false, false, false, "prefer_under"⟩) ∧
    (extractDest ⟨none, none, some ⟨none, none, none, none⟩, none⟩
      = ⟨[], "either", "", ""⟩) ∧
    (extractConstraints ⟨none, none, none, some ⟨none, none, none, none, none⟩⟩
      = ⟨[], "", [], "", ""⟩) ∧
    (aggregatePreferences [⟨none, none, none, none⟩]
      = ⟨⟨none, none, none, []⟩, ⟨0, 0, [], [("prefer_under", 1)]⟩,
         ⟨[], [], [("either", 1)], [], []⟩, ⟨[], [], []⟩,
         ⟨false, false, false, false, []⟩⟩) := by
  refine ⟨?_, ?_, ?_, ?_, rfl, rfl, rfl, rfl, rfl⟩
  · intro p h
    simp [extractDates, h]
  · intro p h
    simp [extractBudget, h]
  · intro p h
    simp [extractDest, h]
  · intro p h
    simp [extractConstraints, h]

/-- Witness for C9 at the fully-absent member record. -/
theorem claim_C9_witness :
    extractDates ⟨none, none, none, none⟩ = ⟨none, none, none, false⟩ :=
  claim_C9.1 ⟨none, none, none, none⟩ rfl

/-- Claim C10: whenever some member's extracted vibe set is non-empty and
some member's is empty, `commonVibes` is empty and `noCommonVibes` is true:
members who supplied no vibes are not excluded from the intersection,
unlike the date reducer which excludes members who supplied no dates. -/
theorem claim_C10 (preferences : List Preference)
    (h1 : ∃ p ∈ preferences, (extractDest p).vibes ≠ [])
    (h2 : ∃ p ∈ preferences, (extractDest p).vibes = []) :
    (aggregatePreferences preferences).destination.commonVibes = [] ∧
    (aggregatePreferences preferences).conflicts.noCommonVibes = true := by
  rcases preferences with _ | ⟨p0, ps⟩
  · rcases h1 with ⟨p, hp, -⟩
    simp at hp
  · rw [aggregate_ne_nil (p0 :: ps) (by simp)]
    simp only [aggregateMain_commonVibes, aggregateMain_noCommonVibes]
    rcases h1 with ⟨p1, hp1, hv1⟩
    rcases h2 with ⟨p2, hp2, hv2⟩
    have hcv : commonVibes (p0 :: ps) = [] := by
      rw [commonVibes_cons]
      apply List.filter_eq_nil_iff.mpr
      intro v hv
      intro hall
      rw [List.all_eq_true] at hall
      have hm : extractDest p2 ∈ allDestPrefs (p0 :: ps) :=
        List.mem_map.mpr ⟨p2, hp2, rfl⟩
      have := hall (extractDest p2) hm
      rw [hv2] at this
      simp at this
    have hav : 0 < (allVibes (p0 :: ps)).length := by
      rcases List.exists_mem_of_ne_nil _ hv1 with ⟨v, hv⟩
      have hmem : v ∈ allVibes (p0 :: ps) := by
        rw [allVibes, mem_insertionDedup, List.mem_flatten]
        exact ⟨(extractDest p1).vibes,
          List.mem_map.mpr ⟨extractDest p1, List.mem_map.mpr ⟨p1, hp1, rfl⟩, rfl⟩, hv⟩
      exact List.length_pos.mpr (fun hnil => by
        rw [hnil] at hmem
        simp at hmem)
    refine ⟨hcv, ?_⟩
    rw [noCommonVibes, hcv]
    simp [hav]

/-- Witness for C10 at a concrete two-member list: one member chose
`hiking`, the other supplied no destination preferences at all. -/
theorem claim_C10_witness :
    (aggregatePreferences
      [⟨none, none, some ⟨some ["hiking"], none, none, none⟩, none⟩,
       ⟨none, none, none, none⟩]).conflicts.noCommonVibes = true :=
  (claim_C10
    [⟨none, none, some ⟨some ["hiking"], none, none, none⟩, none⟩,
     ⟨none, none, none, none⟩]
    ⟨⟨none, none, some ⟨some ["hiking"], none, none, none⟩, none⟩,
      List.mem_cons_self _ _, by simp [extractDest]⟩
    ⟨⟨none, none, none, none⟩, List.mem_cons.mpr (Or.inr (List.mem_cons_self _ _)),
      rfl⟩).2

end TripAggregate
